import Mathlib

/-!
Shallow embedding of the Lead-Board-Dota2 synchronization-and-query engine
(`main.py`).  SQLite tables are modelled as Lean lists, the SQL query built by
`get_players` as an executable filter + sort, Python truthiness of the `int`
and `str` parameters explicitly, SQLite's `UPPER`/`LOWER` (ASCII-only) and
`LIKE` (with `%` and `_` wildcards) as functions on `List Char`, and Python's
Unicode-aware `str.lower()` as a distinct function `pyLower`.
-/

/-- ASCII lower-casing of one character, as SQLite `LOWER` performs it
(non-ASCII characters are left unchanged). -/
def lowerChar (c : Char) : Char :=
  if 'A' ≤ c ∧ c ≤ 'Z' then Char.ofNat (c.toNat + 32) else c

/-- ASCII upper-casing of one character, as SQLite `UPPER` performs it. -/
def upperChar (c : Char) : Char :=
  if 'a' ≤ c ∧ c ≤ 'z' then Char.ofNat (c.toNat - 32) else c

/-- ASCII lower-casing of a string, returned as its character list.
Models SQLite `LOWER(name)`, which folds only A-Z. -/
def strLower (s : String) : List Char := s.data.map lowerChar

/-- ASCII upper-casing of a string.  Models SQLite `UPPER(country)`. -/
def strUpper (s : String) : String := ⟨s.data.map upperChar⟩

/-- One character of Python `str.lower()`, which—unlike SQLite `LOWER`—is
Unicode-aware.  The Unicode simple lowercase mapping is embedded exactly for
the Basic Latin (A-Z), Latin-1 Supplement (À-Þ except ×) and main Cyrillic
(Ѐ-Џ, А-Я) ranges; characters outside these ranges (other scripts, and the
few context-sensitive cases such as final sigma) are outside the modelled
fragment and left unchanged.  Every theorem below exercises this function
only inside the exact fragment. -/
def pyLowerChar (c : Char) : Char :=
  if 'A' ≤ c ∧ c ≤ 'Z' then Char.ofNat (c.toNat + 32)
  else if 0xC0 ≤ c.toNat ∧ c.toNat ≤ 0xDE ∧ c.toNat ≠ 0xD7 then
    Char.ofNat (c.toNat + 32)
  else if 0x410 ≤ c.toNat ∧ c.toNat ≤ 0x42F then Char.ofNat (c.toNat + 32)
  else if 0x400 ≤ c.toNat ∧ c.toNat ≤ 0x40F then Char.ofNat (c.toNat + 80)
  else c

/-- Python `name_player.lower()`, as a character list. -/
def pyLower (s : String) : List Char := s.data.map pyLowerChar

/-- True when every character of the string is ASCII — the fragment on which
Python `str.lower()` and SQLite `LOWER` coincide. -/
def asciiOnly (s : String) : Bool := s.data.all (fun c => decide (c.toNat < 128))

/-- True when the character list contains neither of the SQL `LIKE`
wildcards `%` (any sequence) and `_` (any single character). -/
def noWild (l : List Char) : Bool :=
  l.all (fun c => !(c == '%') && !(c == '_'))

/-- Fuelled SQL `LIKE` matcher: `likeMatchF fuel pattern s` decides whether
`s` matches `pattern`, where `%` matches any sequence of characters and `_`
matches any single character (no ESCAPE clause, as in the source query).
The fuel only serves structural termination; `pattern.length + s.length + 2`
is always sufficient. -/
def likeMatchF : Nat → List Char → List Char → Bool
  | 0, _, _ => false
  | _ + 1, [], s => s.isEmpty
  | f + 1, p :: pt, s =>
    if p == '%' then
      likeMatchF f pt s ||
        (match s with
         | [] => false
         | _ :: st => likeMatchF f (p :: pt) st)
    else
      match s with
      | [] => false
      | c :: st => (p == '_' || p == c) && likeMatchF f pt st

/-- SQL `LIKE` with always-sufficient fuel. -/
def likeMatch (pt s : List Char) : Bool :=
  likeMatchF (pt.length + s.length + 2) pt s

/-- A raw player entry as delivered by the remote API and consumed by
`save_to_db` (`p.get("name", "")` defaults the name to the empty string, the
remaining fields default to NULL).  The `rank` key is always overwritten by
the fetcher, so it is not part of the raw record. -/
structure RawPlayer where
  name : String
  team_id : Option Int
  team_tag : Option String
  sponsor : Option String
  country : Option String
deriving DecidableEq

/-- A player row as stored in (and selected from) the `players` table,
without the `region` column. -/
structure Player where
  rank : Int
  name : String
  team_id : Option Int
  team_tag : Option String
  sponsor : Option String
  country : Option String
deriving DecidableEq

/-- One row of the `players` table: the region column plus the player
columns. -/
structure Row where
  region : String
  p : Player
deriving DecidableEq

/-- Drops the rank from a stored player, recovering the raw fields. -/
def strip_rank (p : Player) : RawPlayer :=
  ⟨p.name, p.team_id, p.team_tag, p.sponsor, p.country⟩

/-- The fixed region list of `main.py`. -/
def REGIONS : List String := ["americas", "europe", "se_asia", "china"]

/-- The rank-assignment loop of `fetch_leaderboards`
(`for idx, player in enumerate(leaderboard, start=1): player["rank"] = idx`),
generalized over the starting index. -/
def assign_ranks_from (i : Int) : List RawPlayer → List Player
  | [] => []
  | p :: t => ⟨i, p.name, p.team_id, p.team_tag, p.sponsor, p.country⟩ :: assign_ranks_from (i + 1) t

/-- Dense 1-based rank assignment in the order received. -/
def assign_ranks (l : List RawPlayer) : List Player := assign_ranks_from 1 l

/-- The parsed JSON body of one successful per-region API response:
`data.get("leaderboard", [])`, `data.get("time_posted", 0)`,
`data.get("next_scheduled_post_time", 0)`. -/
structure RegionResp where
  leaderboard : List RawPlayer
  time_posted : Nat
  next_scheduled_post_time : Nat
deriving DecidableEq

/-- The `database` dict returned by a successful `fetch_leaderboards`:
per-region ranked player lists plus the two global timestamp keys. -/
structure Snapshot where
  regions : List (String × List Player)
  time_posted : Nat
  next_scheduled_post_time : Nat
deriving DecidableEq

/-- The per-region fetch outcomes: for each region, `none` when
`asyncio.gather` delivered an exception for it, `some` of the parsed
response otherwise. -/
def succeeded (outcomes : List (String × Option RegionResp)) :
    List (String × RegionResp) :=
  outcomes.filterMap (fun ro => ro.2.map (fun d => (ro.1, d)))

/-- `fetch_leaderboards`, parameterized by the per-region outcomes of the
concurrent HTTP calls.  Failing regions are skipped, succeeding ones get
dense ranks, the two timestamps accumulate by `max` from 0, and the whole
result is `None` when the `database` dict stayed empty. -/
def fetch_leaderboards (outcomes : List (String × Option RegionResp)) :
    Option Snapshot :=
  if (succeeded outcomes).isEmpty then none
  else
    some
      { regions :=
          (succeeded outcomes).map (fun rd => (rd.1, assign_ranks rd.2.leaderboard))
        time_posted :=
          (succeeded outcomes).foldl (fun a rd => max a rd.2.time_posted) 0
        next_scheduled_post_time :=
          (succeeded outcomes).foldl
            (fun a rd => max a rd.2.next_scheduled_post_time) 0 }

/-- The database state: the `players` table and the `metadata` key/value
table (modelled as a lookup function, `INSERT OR REPLACE` being a pointwise
update). -/
structure DBState where
  players : List Row
  metadata : String → Option Nat

/-- `INSERT OR REPLACE INTO metadata (key, value) VALUES (?, ?)`. -/
def upsert (m : String → Option Nat) (k : String) (v : Nat) :
    String → Option Nat :=
  fun q => if q = k then some v else m q

/-- The per-region part of `save_to_db`: skip when the fetched list is empty
(`if not players: continue`), otherwise delete every row of the region and
bulk-insert the new ones. -/
def replace_region (region : String) (players : List Player)
    (tbl : List Row) : List Row :=
  if players.isEmpty then tbl
  else tbl.filter (fun r => !(r.region == region)) ++
    players.map (fun p => ⟨region, p⟩)

/-- `save_to_db`: the per-region replace for every region of `REGIONS`
(`data.get(region, [])`), followed by the upsert of the two metadata keys. -/
def save_to_db (data : Snapshot) (st : DBState) : DBState :=
  { players :=
      REGIONS.foldl
        (fun acc region =>
          replace_region region ((data.regions.lookup region).getD []) acc)
        st.players
    metadata :=
      upsert (upsert st.metadata "time_posted" data.time_posted)
        "next_scheduled_post_time" data.next_scheduled_post_time }

/-- Python truthiness of the two `int | None` rank bounds, then the SQL
`rank BETWEEN ? AND ?` clause (inclusive).  The clause is only added when
`rank_from and rank_to` is truthy, i.e. both are present and non-zero. -/
def rank_cond (rank_from rank_to : Option Int) (p : Player) : Bool :=
  match rank_from, rank_to with
  | some a, some b =>
    if a ≠ 0 ∧ b ≠ 0 then decide (a ≤ p.rank ∧ p.rank ≤ b) else true
  | _, _ => true

/-- The `UPPER(country) IN (...)` clause, added only for a truthy (non-empty)
country list.  SQLite evaluates `UPPER(NULL) IN (...)` to NULL, so a NULL
country never matches; the list members are compared exactly as passed. -/
def country_cond (cs : List String) (p : Player) : Bool :=
  if cs.isEmpty then true
  else
    match p.country with
    | some c => decide (strUpper c ∈ cs)
    | none => false

/-- The tri-state team clause: `team == "yes"` keeps rows with a present and
non-empty tag, `team == "no"` keeps the complement, anything else imposes no
constraint. -/
def team_cond (team : Option String) (p : Player) : Bool :=
  if team == some "yes" then
    match p.team_tag with
    | none => false
    | some t => !(t == "")
  else if team == some "no" then
    match p.team_tag with
    | none => true
    | some t => t == ""
  else true

/-- The `LOWER(name) LIKE ?` clause with parameter
`f"{name_player.lower()}%"`, added only for a truthy (present, non-empty)
`name_player`.  The pattern side is lowered by Python (`pyLower`,
Unicode-aware), the name side by SQLite `LOWER` (`strLower`, ASCII-only).
SQLite `LIKE` compares case-insensitively on ASCII only; since neither side
retains an uppercase ASCII letter after its lowering, that comparison
coincides with the exact character equality `likeMatch` uses. -/
def name_cond (np : Option String) (p : Player) : Bool :=
  match np with
  | none => true
  | some s =>
    if s == "" then true
    else likeMatch (pyLower s ++ ['%']) (strLower p.name)

/-- The full WHERE clause of `get_players`, applied to one stored row. -/
def matches_filters (region : String) (rank_from rank_to : Option Int)
    (cs : List String) (team np : Option String) (r : Row) : Bool :=
  (r.region == region) && rank_cond rank_from rank_to r.p &&
    country_cond cs r.p && team_cond team r.p && name_cond np r.p

/-- Ascending-rank comparison used by `ORDER BY rank`. -/
def byRank (a b : Player) : Prop := a.rank ≤ b.rank

instance : DecidableRel byRank :=
  fun a b => inferInstanceAs (Decidable (a.rank ≤ b.rank))

instance : IsTotal Player byRank :=
  ⟨fun a b => Int.le_total a.rank b.rank⟩

instance : IsTrans Player byRank :=
  ⟨fun _ _ _ hab hbc => le_trans hab hbc⟩

/-- `get_players`: the dynamically composed, parameterized SELECT of
`main.py`, returning the selected (region-less) player columns ordered by
rank.  An empty country list stands for the `None` the route handler passes
when no country filter is selected. -/
def get_players (db : List Row) (region : String)
    (rank_from rank_to : Option Int) (cs : List String)
    (team np : Option String) : List Player :=
  List.insertionSort byRank
    ((db.filter (matches_filters region rank_from rank_to cs team np)).map Row.p)

/-- Code-point lexicographic comparison of character lists, the order Python
uses to compare strings. -/
def leChars : List Char → List Char → Bool
  | [], _ => true
  | _ :: _, [] => false
  | a :: as, b :: bs => if a = b then leChars as bs else decide (a < b)

/-- Display-name comparison for the country index (`sorted(..., key=lambda
x: x[1])`). -/
def byName (a b : String × String) : Prop := leChars a.2.data b.2.data = true

instance : DecidableRel byName :=
  fun a b => inferInstanceAs (Decidable (leChars a.2.data b.2.data = true))

/-- The SELECT of `get_countries`: `SELECT DISTINCT UPPER(country) FROM
players WHERE region = ? AND country IS NOT NULL`. -/
def country_codes (db : List Row) (region : String) : List String :=
  (((db.filter (fun r => r.region == region)).filterMap
      (fun r => r.p.country)).map strUpper).dedup

/-- `get_countries`: each distinct uppercased code is looked up in the static
reference table (missing codes map to the literal `"Unknown"`) and the pairs
are sorted by display name.  The `iso3166` table is external to the
repository, so it is a parameter. -/
def get_countries (table : List (String × String)) (db : List Row)
    (region : String) : List (String × String) :=
  List.insertionSort byName
    ((country_codes db region).map (fun c => (c, (table.lookup c).getD "Unknown")))

/-- The sleep chosen by one iteration of `scheduled_task` after a fetch:
`300` seconds when the fetch yielded no data, otherwise exactly until the
advertised `next_scheduled_post_time` when it is strictly in the future and
the fixed `3600`-second fallback when it is not. -/
def scheduled_sleep (data : Option Snapshot) (now : Nat) : Nat :=
  match data with
  | none => 300
  | some snap =>
    if now < snap.next_scheduled_post_time then
      snap.next_scheduled_post_time - now
    else 3600

/-- Modelled from the spec: case-insensitive set membership of a stored
country code in the requested list (what the spec asserts the countries
filter computes). -/
def spec_country_member (stored : String) (cs : List String) : Bool :=
  cs.any (fun c => strLower c == strLower stored)

/-- The stored rows of the filter-composition example in the spec:
ranks 1..3 in region "europe" with countries US, se, US and team tags
empty, "ABC", "XYZ". -/
def pRow1 : Row := ⟨"europe", ⟨1, "a", none, some "", none, some "US"⟩⟩

def pRow2 : Row := ⟨"europe", ⟨2, "b", none, some "ABC", none, some "se"⟩⟩

def pRow3 : Row := ⟨"europe", ⟨3, "c", none, some "XYZ", none, some "US"⟩⟩

def exDB1 : List Row := [pRow1, pRow2, pRow3]

/-- A single stored row of rank 3, for exercising the rank-range filter. -/
def pRow7 : Row := ⟨"europe", ⟨3, "x", none, none, none, none⟩⟩

def exDB7 : List Row := [pRow7]

/-- A single stored row named "John", for exercising the name filter. -/
def pRow8 : Row := ⟨"europe", ⟨1, "John", none, none, none, none⟩⟩

def exDB8 : List Row := [pRow8]

/-- A single stored row with a capitalized Cyrillic name, for exercising the
name filter outside ASCII. -/
def pRow8c : Row := ⟨"europe", ⟨1, "Яблоко", none, none, none, none⟩⟩

def exDB8c : List Row := [pRow8c]

/-- Concrete fetch outcomes: americas fails, europe succeeds. -/
def rawJ : RawPlayer := ⟨"John", none, none, none, some "US"⟩

def respE : RegionResp := ⟨[rawJ], 10, 20⟩

def out4 : List (String × Option RegionResp) := [("americas", none), ("europe", some respE)]

def snap4 : Snapshot := ⟨[("europe", [⟨1, "John", none, none, none, some "US"⟩])], 10, 20⟩

/-- Concrete fetch outcomes with two successes and one failure, for the
metadata maxima. -/
def out6 : List (String × Option RegionResp) :=
  [("americas", some ⟨[], 5, 7⟩), ("europe", none), ("se_asia", some ⟨[], 9, 6⟩)]

def snap6 : Snapshot := ⟨[("americas", []), ("se_asia", [])], 9, 7⟩

def st0 : DBState := ⟨[], fun _ => none⟩

/-- Rows and a prior table for the replace-then-query round trip. -/
def rows2 : List Player :=
  [⟨2, "b", none, none, none, none⟩, ⟨1, "a", none, none, none, none⟩]

def exDB2 : List Row := [⟨"europe", ⟨9, "z", none, none, none, none⟩⟩]

/-- A small reference table and a stored lower-case country code. -/
def table9 : List (String × String) := [("SE", "Sweden"), ("US", "United States")]

def row9 : Row := ⟨"europe", ⟨1, "a", none, none, none, some "us"⟩⟩

def exDB9 : List Row := [row9]

lemma leChars_total : ∀ x y : List Char, leChars x y = true ∨ leChars y x = true := by
  intro x
  induction x with
  | nil => intro y; left; rfl
  | cons a as ih =>
    intro y
    cases y with
    | nil => right; rfl
    | cons b bs =>
      by_cases hab : a = b
      · subst hab
        rcases ih bs with h | h
        · left; simpa [leChars] using h
        · right; simpa [leChars] using h
      · rcases lt_or_gt_of_ne hab with h | h
        · left; simp [leChars, hab, h]
        · right; simp [leChars, Ne.symm hab, h]

lemma leChars_trans : ∀ x y z : List Char,
    leChars x y = true → leChars y z = true → leChars x z = true := by
  intro x
  induction x with
  | nil => intro y z _ _; rfl
  | cons a as ih =>
    intro y z hxy hyz
    cases y with
    | nil => simp [leChars] at hxy
    | cons b bs =>
      cases z with
      | nil => simp [leChars] at hyz
      | cons c cs =>
        by_cases hab : a = b <;> by_cases hbc : b = c
        · subst hab; subst hbc
          simp only [leChars, if_pos rfl] at hxy hyz ⊢
          exact ih bs cs hxy hyz
        · subst hab
          simpa [leChars, hbc] using hyz
        · subst hbc
          simpa [leChars, hab] using hxy
        · simp only [leChars, if_neg hab] at hxy
          simp only [leChars, if_neg hbc] at hyz
          have hac : a < c := lt_trans (of_decide_eq_true hxy) (of_decide_eq_true hyz)
          simp [leChars, ne_of_lt hac, hac]

instance : IsTotal (String × String) byName :=
  ⟨fun a b => leChars_total a.2.data b.2.data⟩

instance : IsTrans (String × String) byName :=
  ⟨fun _ _ _ hab hbc => leChars_trans _ _ _ hab hbc⟩

lemma mem_get_players {db : List Row} {region : String}
    {rf rt : Option Int} {cs : List String} {t np : Option String} {p : Player} :
    p ∈ get_players db region rf rt cs t np ↔
      ∃ r, r ∈ db ∧ r.p = p ∧ matches_filters region rf rt cs t np r = true := by
  unfold get_players
  rw [List.mem_insertionSort]
  simp only [List.mem_map, List.mem_filter]
  constructor
  · rintro ⟨r, ⟨hr, hm⟩, hp⟩
    exact ⟨r, hr, hp, hm⟩
  · rintro ⟨r, hr, hp, hm⟩
    exact ⟨r, ⟨hr, hm⟩, hp⟩

lemma matches_filters_case (region : String) (rf rt : Option Int)
    (cs : List String) (t np : Option String) (r : Row) :
    matches_filters region rf rt cs t np r = true ↔
      (r.region = region ∧ rank_cond rf rt r.p = true ∧
        country_cond cs r.p = true ∧ team_cond t r.p = true ∧
        name_cond np r.p = true) := by
  simp [matches_filters, Bool.and_eq_true, beq_iff_eq, and_assoc]

lemma country_cond_nil (q : Player) : country_cond [] q = true := by
  simp [country_cond]

lemma likeMatchF_pct : ∀ (s : List Char) (f : Nat), s.length + 2 ≤ f →
    likeMatchF f (['%']) s = true := by
  intro s
  induction s with
  | nil =>
    intro f hf
    match f, hf with
    | f2 + 2, _ => simp [likeMatchF]
  | cons c st ih =>
    intro f hf
    match f, hf with
    | f2 + 1, hf =>
      have h2 : st.length + 2 ≤ f2 := by
        simp only [List.length_cons] at hf; omega
      simp [likeMatchF, ih f2 h2]

lemma likeMatchF_plain : ∀ (ps : List Char), (∀ c ∈ ps, c ≠ '%' ∧ c ≠ '_') →
    ∀ (s : List Char) (f : Nat), ps.length + s.length + 2 ≤ f →
    likeMatchF f (ps ++ ['%']) s = ps.isPrefixOf s := by
  intro ps
  induction ps with
  | nil =>
    intro _ s f hf
    have : likeMatchF f (['%']) s = true := by
      apply likeMatchF_pct s f; simpa using hf
    simpa [List.isPrefixOf] using this
  | cons p pt ih =>
    intro hw s f hf
    have hp : p ≠ '%' ∧ p ≠ '_' := hw p (List.mem_cons_self p pt)
    have hpt : ∀ c ∈ pt, c ≠ '%' ∧ c ≠ '_' :=
      fun c hc => hw c (List.mem_cons_of_mem p hc)
    match f, hf with
    | f2 + 1, hf =>
      cases s with
      | nil =>
        simp [likeMatchF, List.isPrefixOf, hp.1]
      | cons c st =>
        have hb : st.length + pt.length + 2 ≤ f2 := by
          simp only [List.length_cons] at hf; omega
        have hrec := ih hpt st f2 (by omega)
        have hu : (p == '_') = false := by
          simpa using hp.2
        simp [likeMatchF, List.isPrefixOf, hp.1, hu, hrec]

lemma likeMatch_plain (ps s : List Char) (h : ∀ c ∈ ps, c ≠ '%' ∧ c ≠ '_') :
    likeMatch (ps ++ ['%']) s = ps.isPrefixOf s := by
  apply likeMatchF_plain ps h s
  simp [likeMatch, List.length_append]

lemma noWild_iff (l : List Char) :
    noWild l = true ↔ ∀ c ∈ l, c ≠ '%' ∧ c ≠ '_' := by
  simp [noWild, List.all_eq_true]

lemma pyLowerChar_ascii (c : Char) (h : c.toNat < 128) :
    pyLowerChar c = lowerChar c := by
  unfold pyLowerChar lowerChar
  by_cases hc : 'A' ≤ c ∧ c ≤ 'Z'
  · rw [if_pos hc, if_pos hc]
  · rw [if_neg hc, if_neg hc, if_neg (by omega), if_neg (by omega),
      if_neg (by omega)]

lemma pyLower_eq_strLower (s : String) (h : asciiOnly s = true) :
    pyLower s = strLower s := by
  unfold pyLower strLower
  apply List.map_congr_left
  intro c hc
  apply pyLowerChar_ascii
  have h2 := (List.all_eq_true.mp h) c hc
  simpa using h2

lemma le_foldl_max : ∀ (l : List Nat) (a : Nat), a ≤ l.foldl max a := by
  intro l
  induction l with
  | nil => intro a; exact le_refl a
  | cons x t ih =>
    intro a
    exact le_trans (le_max_left a x) (ih (max a x))

lemma mem_le_foldl_max : ∀ (l : List Nat) (a x : Nat), x ∈ l → x ≤ l.foldl max a := by
  intro l
  induction l with
  | nil => intro a x hx; simp at hx
  | cons y t ih =>
    intro a x hx
    rcases List.mem_cons.mp hx with rfl | hx2
    · exact le_trans (le_max_right a x) (le_foldl_max t (max a x))
    · exact ih (max a y) x hx2

lemma foldl_max_mem : ∀ (l : List Nat) (a : Nat), l.foldl max a = a ∨ l.foldl max a ∈ l := by
  intro l
  induction l with
  | nil => intro a; left; rfl
  | cons x t ih =>
    intro a
    rcases ih (max a x) with h | h
    · rcases max_choice a x with hm | hm
      · left; simpa [hm] using h
      · right; rw [List.foldl_cons, h, hm]; exact List.mem_cons_self x t
    · right; exact List.mem_cons_of_mem x h

lemma foldl_max_zero_mem (l : List Nat) (h : l ≠ []) : l.foldl max 0 ∈ l := by
  rcases foldl_max_mem l 0 with h0 | hm
  · cases l with
    | nil => exact absurd rfl h
    | cons x t =>
      have hx : x ≤ (x :: t).foldl max 0 := mem_le_foldl_max _ 0 x (List.mem_cons_self x t)
      rw [h0] at hx
      have : x = 0 := Nat.le_zero.mp hx
      rw [h0, ← this]
      exact List.mem_cons_self x t
  · exact hm

lemma nodup_fst_inj {α β : Type} : ∀ {l : List (α × β)},
    (l.map Prod.fst).Nodup → ∀ {a : α} {b c : β}, (a, b) ∈ l → (a, c) ∈ l → b = c := by
  intro l
  induction l with
  | nil => intro _ a b c h; simp at h
  | cons x t ih =>
    intro hnd a b c hb hc
    rw [List.map_cons, List.nodup_cons] at hnd
    rcases List.mem_cons.mp hb with hxb | hb2
    · rcases List.mem_cons.mp hc with hxc | hc2
      · have hbc : (a, b) = (a, c) := hxb.trans hxc.symm
        exact ((Prod.mk.injEq a b a c).mp hbc).2
      · exfalso
        apply hnd.1
        rw [← hxb]
        exact List.mem_map.mpr ⟨(a, c), hc2, rfl⟩
    · rcases List.mem_cons.mp hc with hxc | hc2
      · exfalso
        apply hnd.1
        rw [← hxc]
        exact List.mem_map.mpr ⟨(a, b), hb2, rfl⟩
      · exact ih hnd.2 hb2 hc2

lemma assign_ranks_from_map_rank : ∀ (l : List RawPlayer) (i : Int),
    (assign_ranks_from i l).map Player.rank =
      (List.range l.length).map (fun (k : Nat) => i + (k : Int)) := by
  intro l
  induction l with
  | nil => intro i; rfl
  | cons p t ih =>
    intro i
    have hf : ((fun k : Nat => i + (k : Int)) ∘ Nat.succ) =
        fun k : Nat => (i + 1) + (k : Int) := by
      funext k
      simp only [Function.comp_apply, Nat.succ_eq_add_one]
      push_cast
      ring
    simp only [assign_ranks_from, List.map_cons, ih (i + 1), List.length_cons,
      List.range_succ_eq_map, List.map_map, hf]
    norm_num

lemma assign_ranks_from_strip : ∀ (l : List RawPlayer) (i : Int),
    (assign_ranks_from i l).map strip_rank = l := by
  intro l
  induction l with
  | nil => intro i; rfl
  | cons p t ih =>
    intro i
    simp [assign_ranks_from, strip_rank, ih]

lemma mem_country_codes {db : List Row} {region code : String} :
    code ∈ country_codes db region ↔
      ∃ r, r ∈ db ∧ r.region = region ∧
        ∃ c, r.p.country = some c ∧ strUpper c = code := by
  unfold country_codes
  rw [List.mem_dedup, List.mem_map]
  constructor
  · rintro ⟨c, hc, rfl⟩
    obtain ⟨r, hr, hrc⟩ := List.mem_filterMap.mp hc
    obtain ⟨hrdb, hreg⟩ := List.mem_filter.mp hr
    exact ⟨r, hrdb, by simpa using hreg, c, hrc, rfl⟩
  · rintro ⟨r, hrdb, hreg, c, hrc, rfl⟩
    exact ⟨c, List.mem_filterMap.mpr
      ⟨r, List.mem_filter.mpr ⟨hrdb, by simpa using hreg⟩, hrc⟩, rfl⟩

/-- C3: in a scheduler cycle that fetched and persisted data, if the
snapshot's next_scheduled_post_time is strictly greater than the current
time the scheduler sleeps exactly next_scheduled_post_time minus now
seconds; otherwise it sleeps exactly the fixed fallback of 3600 seconds. -/
theorem C3_theorem (snap : Snapshot) (now : Nat) :
    (now < snap.next_scheduled_post_time →
      scheduled_sleep (some snap) now = snap.next_scheduled_post_time - now) ∧
    (snap.next_scheduled_post_time ≤ now →
      scheduled_sleep (some snap) now = 3600) := by
  constructor
  · intro h
    simp [scheduled_sleep, h]
  · intro h
    simp [scheduled_sleep, Nat.not_lt.mpr h]

/-- Witness for C3 at next_scheduled_post_time 100 and now 40 resp. 100. -/
theorem C3_witness :
    scheduled_sleep (some ⟨[], 0, 100⟩) 40 = 60 ∧
    scheduled_sleep (some ⟨[], 0, 100⟩) 100 = 3600 :=
  ⟨(C3_theorem ⟨[], 0, 100⟩ 40).1 (by decide),
   (C3_theorem ⟨[], 0, 100⟩ 100).2 (by decide)⟩

/-- C5: for a fetched list of N entries the assigned ranks are exactly
1..N in the order received, with no gaps or duplicates, and the underlying
entries are kept unchanged and un-reordered. -/
theorem C5_theorem (l : List RawPlayer) :
    (assign_ranks l).map Player.rank =
      (List.range l.length).map (fun (k : Nat) => (k : Int) + 1) ∧
    ((assign_ranks l).map Player.rank).Nodup ∧
    (assign_ranks l).map strip_rank = l := by
  have h1 : (assign_ranks l).map Player.rank =
      (List.range l.length).map (fun (k : Nat) => (k : Int) + 1) := by
    rw [assign_ranks, assign_ranks_from_map_rank]
    have hfun : (fun (k : Nat) => (1 : Int) + (k : Int)) =
        fun (k : Nat) => (k : Int) + 1 := by
      funext k
      ring
    rw [hfun]
  refine ⟨h1, ?_, assign_ranks_from_strip l 1⟩
  rw [h1]
  refine List.Nodup.map ?_ (List.nodup_range l.length)
  intro a b hab
  have h2 : (a : Int) + 1 = (b : Int) + 1 := hab
  omega

/-- C10: a rank bound equal to 0 is falsy in Python, so `rank_from=0` (or
`rank_to=0`) disables the range clause entirely: the result equals the
result with both bounds absent. -/
theorem C10_theorem (db : List Row) (region : String) (cs : List String)
    (t np : Option String) :
    (∀ rt : Option Int, get_players db region (some 0) rt cs t np =
      get_players db region none none cs t np) ∧
    (∀ rf : Option Int, get_players db region rf (some 0) cs t np =
      get_players db region none none cs t np) := by
  constructor
  · intro rt
    unfold get_players
    have h : ∀ r ∈ db, matches_filters region (some 0) rt cs t np r =
        matches_filters region none none cs t np r := by
      intro r _
      unfold matches_filters rank_cond
      cases rt <;> simp
    rw [List.filter_congr h]
  · intro rf
    unfold get_players
    have h : ∀ r ∈ db, matches_filters region rf (some 0) cs t np r =
        matches_filters region none none cs t np r := by
      intro r _
      unfold matches_filters rank_cond
      cases rf <;> simp
    rw [List.filter_congr h]

/-- C1 counterexample: on the spec's own example rows, the query
`countries=["us"], team="yes"` returns the empty list even though the spec's
case-insensitive membership holds for the rank-3 row's stored code "US";
the code only uppercases the stored side (`UPPER(country) IN (...)`) and
compares the passed codes verbatim. -/
theorem C1_counterexample :
    spec_country_member "US" ["us"] = true ∧
    get_players exDB1 "europe" none none ["us"] (some "yes") none = [] := by
  decide

/-- C1 amended: a stored row passes the countries filter iff its country is
non-NULL and its uppercased code is verbatim a member of the passed list
(so the comparison is case-insensitive in the stored code only; the example
returns the rank-3 row when the query list is uppercase, e.g.
countries=["US"]). -/
theorem C1_theorem (db : List Row) (region : String) (rf rt : Option Int)
    (cs : List String) (t np : Option String) (h : cs ≠ []) (p : Player) :
    p ∈ get_players db region rf rt cs t np ↔
      (p ∈ get_players db region rf rt [] t np ∧
        ∃ c, p.country = some c ∧ strUpper c ∈ cs) := by
  have hcc : ∀ q : Player, country_cond cs q = true ↔
      ∃ c, q.country = some c ∧ strUpper c ∈ cs := by
    intro q
    cases cs with
    | nil => exact absurd rfl h
    | cons c0 cs1 =>
      unfold country_cond
      cases hq : q.country with
      | none => simp
      | some c => simp
  rw [mem_get_players, mem_get_players]
  constructor
  · rintro ⟨r, hr, hp, hm⟩
    rw [matches_filters_case] at hm
    obtain ⟨g1, g2, g3, g4, g5⟩ := hm
    refine ⟨⟨r, hr, hp, ?_⟩, ?_⟩
    · rw [matches_filters_case]
      exact ⟨g1, g2, country_cond_nil r.p, g4, g5⟩
    · rw [← hp]
      exact (hcc r.p).mp g3
  · rintro ⟨⟨r, hr, hp, hm⟩, hc⟩
    rw [matches_filters_case] at hm
    obtain ⟨g1, g2, _, g4, g5⟩ := hm
    refine ⟨r, hr, hp, ?_⟩
    rw [matches_filters_case]
    refine ⟨g1, g2, (hcc r.p).mpr ?_, g4, g5⟩
    rw [hp]
    exact hc

/-- Witness for C1 as amended: with the uppercase query list ["US"] and
team="yes" the rank-3 row of the spec example is returned. -/
theorem C1_witness :
    pRow3.p ∈ get_players exDB1 "europe" none none ["US"] (some "yes") none :=
  (C1_theorem exDB1 "europe" none none ["US"] (some "yes") none
    (by decide) pRow3.p).mpr ⟨by decide, "US", by decide, by decide⟩

/-- C7 counterexample: both bounds are supplied (rank_from=0, rank_to=2) yet
the stored rank-3 row is returned although it violates the inclusive range
0..2 — Python treats the 0 bound as falsy and drops the whole range clause. -/
theorem C7_counterexample :
    get_players exDB7 "europe" (some 0) (some 2) [] none none = [pRow7.p] ∧
    ¬((0 : Int) ≤ pRow7.p.rank ∧ pRow7.p.rank ≤ 2) := by
  decide

/-- C7 amended: supplying only one bound is the same as supplying neither,
and the inclusive range constraint is applied exactly when both bounds are
supplied and both are non-zero (a zero bound disables the clause, see C10). -/
theorem C7_theorem (db : List Row) (region : String) (cs : List String)
    (t np : Option String) :
    (∀ a : Int, get_players db region (some a) none cs t np =
      get_players db region none none cs t np) ∧
    (∀ b : Int, get_players db region none (some b) cs t np =
      get_players db region none none cs t np) ∧
    (∀ a b : Int, a ≠ 0 → b ≠ 0 → ∀ p : Player,
      p ∈ get_players db region (some a) (some b) cs t np ↔
        (p ∈ get_players db region none none cs t np ∧
          a ≤ p.rank ∧ p.rank ≤ b)) := by
  refine ⟨?_, ?_, ?_⟩
  · intro a
    unfold get_players
    have h : ∀ r ∈ db, matches_filters region (some a) none cs t np r =
        matches_filters region none none cs t np r := by
      intro r _
      unfold matches_filters rank_cond
      rfl
    rw [List.filter_congr h]
  · intro b
    unfold get_players
    have h : ∀ r ∈ db, matches_filters region none (some b) cs t np r =
        matches_filters region none none cs t np r := by
      intro r _
      unfold matches_filters rank_cond
      rfl
    rw [List.filter_congr h]
  · intro a b ha hb p
    have hrc : ∀ q : Player, rank_cond (some a) (some b) q = true ↔
        (a ≤ q.rank ∧ q.rank ≤ b) := by
      intro q
      have hred : rank_cond (some a) (some b) q =
          if a ≠ 0 ∧ b ≠ 0 then decide (a ≤ q.rank ∧ q.rank ≤ b) else true := rfl
      rw [hred, if_pos ⟨ha, hb⟩]
      exact decide_eq_true_iff
    rw [mem_get_players, mem_get_players]
    constructor
    · rintro ⟨r, hr, hp, hm⟩
      rw [matches_filters_case] at hm
      obtain ⟨g1, g2, g3, g4, g5⟩ := hm
      refine ⟨⟨r, hr, hp, ?_⟩, ?_⟩
      · rw [matches_filters_case]
        exact ⟨g1, rfl, g3, g4, g5⟩
      · rw [← hp]
        exact (hrc r.p).mp g2
    · rintro ⟨⟨r, hr, hp, hm⟩, hrange⟩
      rw [matches_filters_case] at hm
      obtain ⟨g1, _, g3, g4, g5⟩ := hm
      refine ⟨r, hr, hp, ?_⟩
      rw [matches_filters_case]
      refine ⟨g1, (hrc r.p).mpr ?_, g3, g4, g5⟩
      rw [hp]
      exact hrange

/-- Witness for C7 as amended: with both bounds non-zero (1..5) the rank-3
row passes the inclusive range constraint. -/
theorem C7_witness :
    pRow7.p ∈ get_players exDB7 "europe" (some 1) (some 5) [] none none :=
  ((C7_theorem exDB7 "europe" [] none none).2.2 1 5 (by decide) (by decide)
    pRow7.p).mpr ⟨by decide, by decide, by decide⟩

/-- C8 counterexample, refuting the claimed iff in both directions.  First:
with name_prefix "j%" the stored row named "John" is kept although the
lowercased name "john" does not start with the lowercased prefix "j%" — the
prefix is pasted unescaped into the LIKE pattern, so its `%` acts as a
wildcard.  Second: with name_prefix "Я" the stored row named "Яблоко" is
dropped although its lowercased name "яблоко" does start with the lowercased
prefix "я" — Python lowers the prefix Unicode-wide while SQLite `LOWER`
leaves the non-ASCII stored name unchanged and `LIKE` compares non-ASCII
characters exactly. -/
theorem C8_counterexample :
    (get_players exDB8 "europe" none none [] none (some "j%") = [pRow8.p] ∧
      List.isPrefixOf (pyLower "j%") (pyLower "John") = false) ∧
    (get_players exDB8c "europe" none none [] none (some "Я") = [] ∧
      List.isPrefixOf (pyLower "Я") (pyLower "Яблоко") = true) := by
  decide

/-- C8 amended: for a non-empty name_prefix consisting of ASCII characters
(where Python `str.lower()` and SQLite `LOWER` agree) and containing no SQL
LIKE wildcard `%` or `_`, a stored row is kept iff the ASCII-lowercased
stored name starts with the lowercased prefix.  Outside this fragment the
counterexample applies: a wildcard in the prefix is matched as a LIKE
pattern, and a non-ASCII prefix is lowercased Unicode-wide by Python while
the stored name is only ASCII-lowercased by SQLite and compared exactly. -/
theorem C8_theorem (db : List Row) (region : String) (rf rt : Option Int)
    (cs : List String) (t : Option String) (np : String)
    (h1 : np ≠ "") (h2 : asciiOnly np = true)
    (h3 : noWild (strLower np) = true) (p : Player) :
    p ∈ get_players db region rf rt cs t (some np) ↔
      (p ∈ get_players db region rf rt cs t none ∧
        List.isPrefixOf (strLower np) (strLower p.name) = true) := by
  have hnc : ∀ q : Player, name_cond (some np) q = true ↔
      List.isPrefixOf (strLower np) (strLower q.name) = true := by
    intro q
    have hne : ¬((np == "") = true) := by
      simpa using h1
    have hred : name_cond (some np) q =
        if (np == "") = true then true
        else likeMatch (pyLower np ++ ['%']) (strLower q.name) := rfl
    rw [hred, if_neg hne, pyLower_eq_strLower np h2,
      likeMatch_plain _ _ ((noWild_iff _).mp h3)]
  rw [mem_get_players, mem_get_players]
  constructor
  · rintro ⟨r, hr, hp, hm⟩
    rw [matches_filters_case] at hm
    obtain ⟨g1, g2, g3, g4, g5⟩ := hm
    refine ⟨⟨r, hr, hp, ?_⟩, ?_⟩
    · rw [matches_filters_case]
      exact ⟨g1, g2, g3, g4, rfl⟩
    · rw [← hp]
      exact (hnc r.p).mp g5
  · rintro ⟨⟨r, hr, hp, hm⟩, hpre⟩
    rw [matches_filters_case] at hm
    obtain ⟨g1, g2, g3, g4, _⟩ := hm
    refine ⟨r, hr, hp, ?_⟩
    rw [matches_filters_case]
    refine ⟨g1, g2, g3, g4, (hnc r.p).mpr ?_⟩
    rw [hp]
    exact hpre

/-- Witness for C8 as amended: the ASCII, wildcard-free prefix "jo" keeps
the row named "John" because "john" starts with "jo". -/
theorem C8_witness :
    pRow8.p ∈ get_players exDB8 "europe" none none [] none (some "jo") :=
  (C8_theorem exDB8 "europe" none none [] none "jo" (by decide) (by decide)
    (by decide) pRow8.p).mpr ⟨by decide, by decide⟩

/-- C2: after a successful per-region replace of region R with a non-empty
list rows having pairwise distinct ranks (the UNIQUE(region, rank)
constraint of a successful bulk insert), an unfiltered query for R returns
exactly rows — a permutation of rows ordered ascending by rank — with no
entry of the prior snapshot of R remaining. -/
theorem C2_theorem (R : String) (rows : List Player) (db : List Row)
    (h1 : rows ≠ [])
    (h2 : rows.Pairwise (fun a b => a.rank ≠ b.rank)) :
    List.Perm (get_players (replace_region R rows db) R none none [] none none) rows ∧
    List.Sorted byRank (get_players (replace_region R rows db) R none none [] none none) := by
  have hfe : rows.isEmpty = false := by
    cases rows with
    | nil => exact absurd rfl h1
    | cons x t => rfl
  have key : get_players (replace_region R rows db) R none none [] none none =
      List.insertionSort byRank rows := by
    unfold get_players replace_region
    rw [if_neg (by simp [hfe])]
    congr 1
    have hA : (db.filter (fun r => !(r.region == R))).filter
        (matches_filters R none none [] none none) = [] := by
      rw [List.filter_filter]
      apply List.filter_eq_nil_iff.mpr
      intro r hr
      by_cases hR : r.region = R
      · simp [matches_filters, hR]
      · simp [matches_filters, hR]
    have hB : ((rows.map (fun p => (⟨R, p⟩ : Row))).filter
        (matches_filters R none none [] none none)) =
        rows.map (fun p => (⟨R, p⟩ : Row)) := by
      apply List.filter_eq_self.mpr
      intro r hr
      obtain ⟨q, hq, rfl⟩ := List.mem_map.mp hr
      rw [matches_filters_case]
      exact ⟨rfl, rfl, country_cond_nil _, rfl, rfl⟩
    rw [List.filter_append, hA, hB, List.nil_append, List.map_map]
    exact List.map_id' rows
  rw [key]
  exact ⟨List.perm_insertionSort byRank rows,
    List.sorted_insertionSort byRank rows⟩

/-- Witness for C2: replacing region "europe" (prior snapshot: one rank-9
row) with two rows given in rank order 2, 1 yields exactly those two rows,
sorted by rank. -/
theorem C2_witness :
    List.Perm (get_players (replace_region "europe" rows2 exDB2) "europe"
      none none [] none none) rows2 ∧
    List.Sorted byRank (get_players (replace_region "europe" rows2 exDB2)
      "europe" none none [] none none) :=
  C2_theorem "europe" rows2 exDB2 (by decide) (by decide)

/-- C4: fetch_leaderboards returns None iff every region's call failed; when
some snapshot is returned, every succeeding region is present in it with its
ranked rows, and (for distinct region names) every failing region is absent
from it. -/
theorem C4_theorem (outcomes : List (String × Option RegionResp)) :
    (fetch_leaderboards outcomes = none ↔ ∀ ro ∈ outcomes, ro.2 = none) ∧
    (∀ snap : Snapshot, fetch_leaderboards outcomes = some snap →
      (∀ (r : String) (d : RegionResp), (r, some d) ∈ outcomes →
        (r, assign_ranks d.leaderboard) ∈ snap.regions) ∧
      ((outcomes.map Prod.fst).Nodup → ∀ r : String, (r, none) ∈ outcomes →
        r ∉ snap.regions.map Prod.fst)) := by
  have hempty : (succeeded outcomes).isEmpty = true ↔ ∀ ro ∈ outcomes, ro.2 = none := by
    rw [List.isEmpty_iff]
    unfold succeeded
    rw [List.filterMap_eq_nil_iff]
    constructor
    · intro h ro hro
      have := h ro hro
      simpa [Option.map_eq_none'] using this
    · intro h ro hro
      simp [Option.map_eq_none', h ro hro]
  constructor
  · constructor
    · intro h
      by_cases hs : (succeeded outcomes).isEmpty
      · exact hempty.mp hs
      · exfalso
        unfold fetch_leaderboards at h
        rw [if_neg hs] at h
        exact Option.noConfusion h
    · intro h
      unfold fetch_leaderboards
      rw [if_pos (hempty.mpr h)]
  · intro snap hsnap
    have hne : ¬((succeeded outcomes).isEmpty = true) := by
      intro hs
      unfold fetch_leaderboards at hsnap
      rw [if_pos hs] at hsnap
      exact Option.noConfusion hsnap
    unfold fetch_leaderboards at hsnap
    rw [if_neg hne] at hsnap
    have hsn := Option.some.inj hsnap
    have hregions : snap.regions =
        (succeeded outcomes).map (fun rd => (rd.1, assign_ranks rd.2.leaderboard)) := by
      rw [← hsn]
    constructor
    · intro r d hmem
      rw [hregions]
      apply List.mem_map.mpr
      refine ⟨(r, d), ?_, rfl⟩
      unfold succeeded
      apply List.mem_filterMap.mpr
      exact ⟨(r, some d), hmem, rfl⟩
    · intro hnd r hrnone hcontra
      rw [hregions, List.map_map] at hcontra
      obtain ⟨rd, hrd, hfst⟩ := List.mem_map.mp hcontra
      obtain ⟨ro, hro, hmap⟩ := List.mem_filterMap.mp hrd
      cases hro2 : ro.2 with
      | none =>
        rw [hro2] at hmap
        exact Option.noConfusion hmap
      | some d =>
        rw [hro2] at hmap
        have hrd2 : rd = (ro.1, d) := (Option.some.inj hmap).symm
        have hro1 : ro.1 = r := by
          rw [hrd2] at hfst
          exact hfst
        have hmem2 : (r, some d) ∈ outcomes := by
          have : ro = (r, some d) := by
            rw [← hro1, ← hro2]
          rw [← this]
          exact hro
        exact Option.noConfusion (nodup_fst_inj hnd hrnone hmem2)

/-- Witness for C4: with americas failing and europe succeeding, the
returned snapshot contains europe with its ranked rows. -/
theorem C4_witness :
    ("europe", assign_ranks [rawJ]) ∈ snap4.regions :=
  ((C4_theorem out4).2 snap4 (by decide)).1 "europe" respE (by decide)

/-- C6: after a successful fetch-and-persist cycle, the stored metadata maps
"time_posted" and "next_scheduled_post_time" to the snapshot values, which
are each the maximum of the corresponding field over the regions that
succeeded in the cycle; both keys are overwritten regardless of the prior
database state st. -/
theorem C6_theorem (outcomes : List (String × Option RegionResp))
    (snap : Snapshot) (st : DBState)
    (h : fetch_leaderboards outcomes = some snap) :
    (save_to_db snap st).metadata "time_posted" = some snap.time_posted ∧
    (save_to_db snap st).metadata "next_scheduled_post_time" =
      some snap.next_scheduled_post_time ∧
    snap.time_posted ∈ (succeeded outcomes).map (fun rd => rd.2.time_posted) ∧
    (∀ v ∈ (succeeded outcomes).map (fun rd => rd.2.time_posted),
      v ≤ snap.time_posted) ∧
    snap.next_scheduled_post_time ∈
      (succeeded outcomes).map (fun rd => rd.2.next_scheduled_post_time) ∧
    (∀ v ∈ (succeeded outcomes).map (fun rd => rd.2.next_scheduled_post_time),
      v ≤ snap.next_scheduled_post_time) := by
  have hne : ¬((succeeded outcomes).isEmpty = true) := by
    intro hs
    unfold fetch_leaderboards at h
    rw [if_pos hs] at h
    exact Option.noConfusion h
  have hnil : succeeded outcomes ≠ [] := by
    intro hn
    apply hne
    rw [hn]
    rfl
  unfold fetch_leaderboards at h
  rw [if_neg hne] at h
  have hsn := Option.some.inj h
  have htp : snap.time_posted =
      ((succeeded outcomes).map (fun rd => rd.2.time_posted)).foldl max 0 := by
    rw [← hsn]
    simp [List.foldl_map]
  have hnp : snap.next_scheduled_post_time =
      ((succeeded outcomes).map
        (fun rd => rd.2.next_scheduled_post_time)).foldl max 0 := by
    rw [← hsn]
    simp [List.foldl_map]
  have hmn1 : (succeeded outcomes).map (fun rd => rd.2.time_posted) ≠ [] := by
    intro hmn
    exact hnil (List.map_eq_nil_iff.mp hmn)
  have hmn2 : (succeeded outcomes).map
      (fun rd => rd.2.next_scheduled_post_time) ≠ [] := by
    intro hmn
    exact hnil (List.map_eq_nil_iff.mp hmn)
  refine ⟨?_, ?_, ?_, ?_, ?_, ?_⟩
  · simp [save_to_db, upsert]
  · simp [save_to_db, upsert]
  · rw [htp]
    exact foldl_max_zero_mem _ hmn1
  · intro v hv
    rw [htp]
    exact mem_le_foldl_max _ 0 v hv
  · rw [hnp]
    exact foldl_max_zero_mem _ hmn2
  · intro v hv
    rw [hnp]
    exact mem_le_foldl_max _ 0 v hv

/-- Witness for C6: americas (5, 7) and se_asia (9, 6) succeed, europe
fails; the stored metadata is time_posted 9 and next_scheduled_post_time 7. -/
theorem C6_witness :
    (save_to_db snap6 st0).metadata "time_posted" = some 9 ∧
    (save_to_db snap6 st0).metadata "next_scheduled_post_time" = some 7 :=
  ⟨(C6_theorem out6 snap6 st0 (by decide)).1,
   (C6_theorem out6 snap6 st0 (by decide)).2.1⟩

/-- C9: the country index of a region contains exactly the (uppercased)
country codes observed among that region's stored rows, each mapped to the
reference-table name with unmatched codes mapping to "Unknown", with no
duplicate codes, sorted by the display name. -/
theorem C9_theorem (table : List (String × String)) (db : List Row)
    (region : String) :
    (∀ code : String,
      code ∈ (get_countries table db region).map Prod.fst ↔
        ∃ r, r ∈ db ∧ r.region = region ∧
          ∃ c, r.p.country = some c ∧ strUpper c = code) ∧
    (∀ cv ∈ get_countries table db region,
      cv.2 = (table.lookup cv.1).getD "Unknown") ∧
    ((get_countries table db region).map Prod.fst).Nodup ∧
    List.Sorted byName (get_countries table db region) := by
  have hperm := List.perm_insertionSort byName
    ((country_codes db region).map (fun c => (c, (table.lookup c).getD "Unknown")))
  have hmapfst : ((country_codes db region).map
      (fun c => (c, (table.lookup c).getD "Unknown"))).map Prod.fst =
      country_codes db region := by
    rw [List.map_map]
    exact List.map_id' _
  refine ⟨?_, ?_, ?_, ?_⟩
  · intro code
    unfold get_countries
    rw [(hperm.map Prod.fst).mem_iff, hmapfst, mem_country_codes]
  · intro cv hcv
    unfold get_countries at hcv
    have hcv2 := hperm.mem_iff.mp hcv
    obtain ⟨c, hc, rfl⟩ := List.mem_map.mp hcv2
    rfl
  · unfold get_countries
    rw [(hperm.map Prod.fst).nodup_iff, hmapfst]
    exact List.nodup_dedup _
  · exact List.sorted_insertionSort byName _

/-- Witness for C9: the stored lower-case code "us" appears in the index as
the uppercased code "US". -/
theorem C9_witness :
    "US" ∈ (get_countries table9 exDB9 "europe").map Prod.fst :=
  ((C9_theorem table9 exDB9 "europe").1 "US").mpr
    ⟨row9, by decide, rfl, "us", rfl, by decide⟩
